import Mathlib

/-!
Verification development for the petpet index-builder
(`src/petpet/tools/index-builder` plus the content-hash utility and the
font-info reader). The filesystem, the JSON parser (`require`/`JSON.parse`),
the script evaluator (`eval`) and the binary font parser (`fontkit`) are
external collaborators; they are modelled as explicit data (a directory
tree value) and as function parameters. All functions of the repository
itself are translated definition-by-definition below.
-/

/-- Model of a filesystem node: a regular file with its byte content
(modelled as a string of bytes, so that `stat.size` is the content length),
or a directory with a list of named entries in `readdir` order. -/
inductive FsNode where
  | file (content : String)
  | dir (entries : List (String × FsNode))

/-- The record built by `filesMd5` in `utils.js`: the `resource` object
(relative path → digest), modelled as an association list in insertion
order, and the cumulative `size`. -/
structure Md5Result where
  resource : List (String × String)
  size : Nat
deriving Repr

mutual
/-- Embedding of `filesMd5(dirPath)` from `utils.js`, applied to the entry
list of the directory at `dirPath`.  For every entry: a subdirectory is
hashed recursively and each resulting path is re-keyed with the prefix
`entryName + "/"` and its size added; a regular file contributes one entry
`entryName ↦ md5(content)` and its stat size.  The concurrent
`Promise.all` loop is sequentialised in `readdir` order (the object is a
key/value map, so insertion order is irrelevant to its contents). -/
def filesMd5 (md5 : String → String) : List (String × FsNode) → Md5Result
  | [] => { resource := [], size := 0 }
  | (name, node) :: rest =>
    let head := filesMd5Entry md5 name node
    let tail := filesMd5 md5 rest
    { resource := head.resource ++ tail.resource, size := head.size + tail.size }

/-- The body of the per-entry callback inside `filesMd5`. -/
def filesMd5Entry (md5 : String → String) (name : String) : FsNode → Md5Result
  | .file content => { resource := [(name, md5 content)], size := content.length }
  | .dir entries =>
    let child := filesMd5 md5 entries
    { resource := child.resource.map (fun p => (name ++ "/" ++ p.1, p.2)),
      size := child.size }
end

mutual
/-- Independent recursive walk of a directory tree: every regular file
under the root, as a (slash-joined relative path, content) pair, in entry
order.  This is the specification-side walk against which `filesMd5` is
compared. -/
def treeFiles : List (String × FsNode) → List (String × String)
  | [] => []
  | (name, node) :: rest => nodeFiles name node ++ treeFiles rest

/-- Files of a single named node, with paths relative to its parent. -/
def nodeFiles (name : String) : FsNode → List (String × String)
  | .file c => [(name, c)]
  | .dir es => (treeFiles es).map (fun p => (name ++ "/" ++ p.1, p.2))
end

/-- A legal entry name: non-degenerate on a real filesystem, it contains
no path separator. -/
def validName (s : String) : Bool := decide ('/' ∉ s.data)

mutual
/-- Well-formedness of a directory entry list: names contain no slash and
are distinct within the directory, recursively. -/
def wfEntries : List (String × FsNode) → Bool
  | [] => true
  | (name, node) :: rest =>
    validName name && wfNode node && rest.all (fun e => decide (e.1 ≠ name)) && wfEntries rest

/-- Well-formedness of a node. -/
def wfNode : FsNode → Bool
  | .file _ => true
  | .dir es => wfEntries es
end

/-! ### Key-shape lemmas for slash-joined relative paths -/

theorem chars_slash_inj : ∀ (as bs : List Char), ∀ (xs ys : List Char),
    '/' ∉ as → '/' ∉ bs → as ++ '/' :: xs = bs ++ '/' :: ys → as = bs
  | [], [], _, _, _, _, _ => rfl
  | [], b :: bs, xs, ys, _, hb, h => by
      simp only [List.nil_append, List.cons_append, List.cons.injEq] at h
      exact absurd (h.1 ▸ List.mem_cons_self b bs) hb
  | a :: as, [], xs, ys, ha, _, h => by
      simp only [List.nil_append, List.cons_append, List.cons.injEq] at h
      exact absurd (h.1.symm ▸ List.mem_cons_self a as) ha
  | a :: as, b :: bs, xs, ys, ha, hb, h => by
      simp only [List.cons_append, List.cons.injEq] at h
      have := chars_slash_inj as bs xs ys (fun hm => ha (List.mem_cons_of_mem a hm))
        (fun hm => hb (List.mem_cons_of_mem b hm)) h.2
      rw [h.1, this]

theorem slashed_data (a x : String) : (a ++ "/" ++ x).data = a.data ++ '/' :: x.data := by
  simp [String.data_append]

theorem validName_ne_slashed {a : String} (b r : String) (ha : validName a = true) :
    a ≠ b ++ "/" ++ r := by
  intro h
  have hd : a.data = b.data ++ '/' :: r.data := by rw [h, slashed_data]
  have : '/' ∉ a.data := by simpa [validName] using ha
  exact this (hd ▸ List.mem_append_right _ (List.mem_cons_self _ _))

theorem slashed_inj {a b : String} (x y : String) (ha : validName a = true)
    (hb : validName b = true) (h : a ++ "/" ++ x = b ++ "/" ++ y) : a = b := by
  have hd : a.data ++ '/' :: x.data = b.data ++ '/' :: y.data := by
    rw [← slashed_data, ← slashed_data, h]
  have ha' : '/' ∉ a.data := by simpa [validName] using ha
  have hb' : '/' ∉ b.data := by simpa [validName] using hb
  exact String.ext (chars_slash_inj _ _ _ _ ha' hb' hd)

theorem slash_append_inj (a : String) : Function.Injective (fun x => a ++ "/" ++ x) := by
  intro x y h
  have hd : a.data ++ '/' :: x.data = a.data ++ '/' :: y.data := by
    rw [← slashed_data, ← slashed_data]; exact congrArg String.data h
  have := List.append_cancel_left hd
  exact String.ext (List.cons_injective this)

/-! ### `filesMd5` against the independent walk -/

mutual
theorem filesMd5_resource_eq (md5 : String → String) :
    (es : List (String × FsNode)) →
    (filesMd5 md5 es).resource = (treeFiles es).map (fun p => (p.1, md5 p.2))
  | [] => rfl
  | (name, node) :: rest => by
      simp [filesMd5, treeFiles, filesMd5Entry_resource_eq md5 name node,
        filesMd5_resource_eq md5 rest]

theorem filesMd5Entry_resource_eq (md5 : String → String) (name : String) :
    (node : FsNode) →
    (filesMd5Entry md5 name node).resource = (nodeFiles name node).map (fun p => (p.1, md5 p.2))
  | .file c => rfl
  | .dir es => by
      simp [filesMd5Entry, nodeFiles, filesMd5_resource_eq md5 es, List.map_map,
        Function.comp]
end

mutual
theorem filesMd5_size_eq (md5 : String → String) :
    (es : List (String × FsNode)) →
    (filesMd5 md5 es).size = ((treeFiles es).map (fun p => p.2.length)).sum
  | [] => rfl
  | (name, node) :: rest => by
      simp [filesMd5, treeFiles, filesMd5Entry_size_eq md5 name node,
        filesMd5_size_eq md5 rest]

theorem filesMd5Entry_size_eq (md5 : String → String) (name : String) :
    (node : FsNode) →
    (filesMd5Entry md5 name node).size = ((nodeFiles name node).map (fun p => p.2.length)).sum
  | .file c => by simp [filesMd5Entry, nodeFiles]
  | .dir es => by
      simp [filesMd5Entry, nodeFiles, filesMd5_size_eq md5 es, List.map_map,
        Function.comp_def]
end

theorem mem_nodeFiles_keys {k name : String} {node : FsNode}
    (h : k ∈ (nodeFiles name node).map Prod.fst) :
    k = name ∨ ∃ r, k = name ++ "/" ++ r := by
  cases node with
  | file c => simp [nodeFiles] at h; exact Or.inl h
  | dir es =>
      rw [nodeFiles, List.map_map] at h
      obtain ⟨p, hp, hk⟩ := List.mem_map.1 h
      simp only [Function.comp_apply] at hk
      exact Or.inr ⟨p.1, hk.symm⟩

theorem mem_treeFiles_keys {k : String} : ∀ {es : List (String × FsNode)},
    k ∈ (treeFiles es).map Prod.fst →
    ∃ p, p ∈ es ∧ (k = p.1 ∨ ∃ r, k = p.1 ++ "/" ++ r)
  | [], h => by simp [treeFiles] at h
  | (name, node) :: rest, h => by
      rw [treeFiles, List.map_append] at h
      rcases List.mem_append.1 h with h1 | h2
      · exact ⟨(name, node), List.mem_cons_self _ _, mem_nodeFiles_keys h1⟩
      · obtain ⟨p, hp, hform⟩ := mem_treeFiles_keys h2
        exact ⟨p, List.mem_cons_of_mem _ hp, hform⟩

theorem wfEntries_cons {name : String} {node : FsNode} {rest : List (String × FsNode)}
    (h : wfEntries ((name, node) :: rest) = true) :
    validName name = true ∧ wfNode node = true ∧
      (∀ p ∈ rest, p.1 ≠ name) ∧ wfEntries rest = true := by
  rw [wfEntries] at h
  simp only [Bool.and_eq_true, List.all_eq_true, decide_eq_true_eq] at h
  exact ⟨h.1.1.1, h.1.1.2, h.1.2, h.2⟩

theorem wfEntries_validName : ∀ {es : List (String × FsNode)}, wfEntries es = true →
    ∀ p ∈ es, validName p.1 = true
  | [], _, p, hp => by simp at hp
  | (name, node) :: rest, h, p, hp => by
      obtain ⟨h1, _, _, h4⟩ := wfEntries_cons h
      rcases List.mem_cons.1 hp with rfl | hp'
      · exact h1
      · exact wfEntries_validName h4 p hp'

theorem key_forms_ne {k : String} {a b : String}
    (ha : validName a = true) (hb : validName b = true) (hab : a ≠ b)
    (h1 : k = a ∨ ∃ r, k = a ++ "/" ++ r) (h2 : k = b ∨ ∃ r, k = b ++ "/" ++ r) : False := by
  rcases h1 with rfl | ⟨r, rfl⟩
  · rcases h2 with rfl | ⟨r, h⟩
    · exact hab rfl
    · exact validName_ne_slashed b r ha h
  · rcases h2 with h | ⟨r', h⟩
    · exact validName_ne_slashed a r hb h.symm
    · exact hab (slashed_inj r r' ha hb h)

mutual
theorem treeFiles_keys_nodup : (es : List (String × FsNode)) → wfEntries es = true →
    ((treeFiles es).map Prod.fst).Nodup
  | [], _ => by simp [treeFiles]
  | (name, node) :: rest, hwf => by
      obtain ⟨h1, h2, h3, h4⟩ := wfEntries_cons hwf
      rw [treeFiles, List.map_append, List.nodup_append]
      refine ⟨nodeFiles_keys_nodup name node h2, treeFiles_keys_nodup rest h4, ?_⟩
      intro k hk hk'
      obtain ⟨p, hp, hform⟩ := mem_treeFiles_keys hk'
      exact key_forms_ne h1 (wfEntries_validName h4 p hp)
        (fun he => (h3 p hp) he.symm) (mem_nodeFiles_keys hk) hform

theorem nodeFiles_keys_nodup (name : String) : (node : FsNode) → wfNode node = true →
    ((nodeFiles name node).map Prod.fst).Nodup
  | .file c, _ => by simp [nodeFiles]
  | .dir es, h => by
      have ih := treeFiles_keys_nodup es (by simpa [wfNode] using h)
      have : (nodeFiles name (.dir es)).map Prod.fst =
          ((treeFiles es).map Prod.fst).map (fun x => name ++ "/" ++ x) := by
        simp [nodeFiles, List.map_map, Function.comp]
      rw [this]
      exact ih.map (slash_append_inj name)
end

/-- C1: For every directory tree, the directory hasher `filesMd5` returns a
map containing exactly one entry per regular file under the root (the
resource list equals the independent recursive walk, hashed, and its keys
are pairwise distinct), keyed by the file's slash-joined path relative to
the root, and the returned size equals the sum of the stat sizes of all
regular files in the tree. -/
theorem filesMd5_correct (md5 : String → String) (es : List (String × FsNode))
    (hwf : wfEntries es = true) :
    (filesMd5 md5 es).resource = (treeFiles es).map (fun p => (p.1, md5 p.2)) ∧
    ((filesMd5 md5 es).resource.map Prod.fst).Nodup ∧
    (filesMd5 md5 es).size = ((treeFiles es).map (fun p => p.2.length)).sum := by
  refine ⟨filesMd5_resource_eq md5 es, ?_, filesMd5_size_eq md5 es⟩
  rw [filesMd5_resource_eq md5 es, List.map_map]
  have : (Prod.fst ∘ fun p : String × String => (p.1, md5 p.2)) = Prod.fst := by
    funext p; rfl
  rw [this]
  exact treeFiles_keys_nodup es hwf

/-- A small concrete directory tree used to instantiate `filesMd5_correct`. -/
def demoTree : List (String × FsNode) :=
  [("a.txt", .file "xy"), ("sub", .dir [("b.txt", .file "z"), ("c.txt", .file "pq")])]

theorem filesMd5_correct_witness :
    (filesMd5 (fun s => "h:" ++ s) demoTree).resource =
      (treeFiles demoTree).map (fun p => (p.1, "h:" ++ p.2)) ∧
    ((filesMd5 (fun s => "h:" ++ s) demoTree).resource.map Prod.fst).Nodup ∧
    (filesMd5 (fun s => "h:" ++ s) demoTree).size =
      ((treeFiles demoTree).map (fun p => p.2.length)).sum :=
  filesMd5_correct (fun s => "h:" ++ s) demoTree (by
    simp [demoTree, wfEntries, wfNode, validName])

/-! ### JavaScript value model

The template-definition files are parsed JSON (`require`, `JSON.parse`) and
the template scripts hand back arbitrary JavaScript values; both are
modelled by `JSValue`.  Property access, truthiness, `??` and `new Set`
semantics are embedded below. -/

inductive JSValue where
  | undefined
  | null
  | bool (b : Bool)
  | num (n : Int)
  | str (s : String)
  | arr (elems : List JSValue)
  | obj (fields : List (String × JSValue))

/-- JavaScript truthiness (NaN and floats are out of the model; numbers are
integers). -/
def JSValue.truthy : JSValue → Bool
  | .undefined => false
  | .null => false
  | .bool b => b
  | .num n => decide (n ≠ 0)
  | .str s => decide (s ≠ "")
  | .arr _ => true
  | .obj _ => true

/-- Whether a value is `null` or `undefined` (the values `??` and `?.`
react to). -/
def JSValue.nullish : JSValue → Bool
  | .undefined => true
  | .null => true
  | _ => false

/-- The nullish-coalescing operator `v ?? d`. -/
def jsCoalesce (v d : JSValue) : JSValue := if v.nullish then d else v

/-- JavaScript property access `v.k`: a TypeError on `null`/`undefined`,
the field value (or `undefined`) on an object, and `undefined` on other
primitives (none of the accessed property names is a built-in). -/
def jsGetProp (v : JSValue) (k : String) : Except String JSValue :=
  match v with
  | .undefined => .error "TypeError"
  | .null => .error "TypeError"
  | .obj fields => .ok (((fields.find? (fun p => p.1 = k)).map Prod.snd).getD .undefined)
  | _ => .ok .undefined

/-- `x.toLowerCase()`: defined on strings, a TypeError on anything else. -/
def jsToLowerCase : JSValue → Except String String
  | .str s => .ok s.toLower
  | _ => .error "TypeError"

/-- Strict equality against the string literal `'text'`, as in
`e.type === 'text'`. -/
def isTextType : JSValue → Bool
  | .str s => decide (s = "text")
  | _ => false

/-- `[...new Set(l)]` (auxiliary with the already-seen elements). -/
def jsSetDedupAux {α : Type} [DecidableEq α] (seen : List α) : List α → List α
  | [] => []
  | x :: xs => if x ∈ seen then jsSetDedupAux seen xs else x :: jsSetDedupAux (x :: seen) xs

/-- `[...new Set(l)]`: deduplication keeping the first occurrence of each
element, in insertion order. -/
def jsSetDedup {α : Type} [DecidableEq α] (l : List α) : List α := jsSetDedupAux [] l

/-! ### Monadic list combinators over `Except`

`Promise.all(list.map(...))`, `Array.prototype.filter` with a throwing
callback, and the sequential accumulation loops are embedded by explicit
recursion (fail-fast: the first error wins, as with a rejected
`Promise.all`). -/

def exceptMapAll {α β : Type} (f : α → Except String β) : List α → Except String (List β)
  | [] => .ok []
  | x :: xs =>
    match f x with
    | .error e => .error e
    | .ok y =>
      match exceptMapAll f xs with
      | .error e => .error e
      | .ok ys => .ok (y :: ys)

def exceptFilter {α : Type} (p : α → Except String Bool) : List α → Except String (List α)
  | [] => .ok []
  | x :: xs =>
    match p x with
    | .error e => .error e
    | .ok b =>
      match exceptFilter p xs with
      | .error e => .error e
      | .ok ys => .ok (if b then x :: ys else ys)

/-! ### Filesystem primitives used by the builders -/

/-- Look an entry up in a directory listing (by name, first match). -/
def lookupEntry (es : List (String × FsNode)) (name : String) : Option FsNode :=
  (es.find? (fun p => p.1 = name)).map Prod.snd

/-- `fs.existsSync(path.join(dir, name))`. -/
def existsSync (es : List (String × FsNode)) (name : String) : Bool :=
  (lookupEntry es name).isSome

/-- `fs.readFileSync(path.join(dir, name))`: the content of a regular
file, `EISDIR` on a directory, `ENOENT` on a missing entry. -/
def readFileSync (es : List (String × FsNode)) (name : String) : Except String String :=
  match lookupEntry es name with
  | some (.file c) => .ok c
  | some (.dir _) => .error "EISDIR"
  | none => .error "ENOENT"

/-- `path.join(a, b)` for the output paths (no normalisation needed on the
inputs the builders produce). -/
def pathJoin (a b : String) : String := a ++ "/" ++ b

/-! ### External collaborators -/

/-- The name strings `fontkit.open` exposes on a font: each may be absent
(`null`/`undefined`) in the underlying font data. -/
structure FontNames where
  familyName : Option String
  fullName : Option String
  postscriptName : Option String
  subfamilyName : Option String

/-- The external collaborators of the builder, as function parameters:
`md5` digests a byte content; `parseJSON` is `require`/`JSON.parse` of a
definition file's text; `evalScript` is the sandboxed `eval` of a template
script, reported as the sequence of callbacks the script passes to its
injected `register` hook (an `eval`-time exception is an `error`);
`fontParse` is `fontkit.open`, keyed by the font file's content. -/
structure ExtEnv where
  md5 : String → String
  parseJSON : String → Except String JSValue
  evalScript : String → Except String (List (JSValue → JSValue))
  fontParse : String → Except String FontNames

/-- `[familyName, fullName, postscriptName, subfamilyName].map(n =>
n.toLowerCase())` from `fonts-info.ts`: JavaScript's `map` evaluates left
to right and throws a TypeError at the first absent name. -/
def mapLowerAll : List (Option String) → Except String (List String)
  | [] => .ok []
  | none :: _ => .error "TypeError"
  | some s :: rest =>
    match mapLowerAll rest with
    | .error e => .error e
    | .ok l => .ok (s.toLower :: l)

/-- Embedding of `getFontInfo` from `fonts-info.ts` (`src/unnamed/part_001`),
applied to the `FontNames` record produced by `fontkit.open`: lower-case
the four name strings, deduplicate them through `new Set`, and return the
resulting `name` list. -/
def getFontInfo (f : FontNames) : Except String (List String) :=
  match mapLowerAll [f.familyName, f.fullName, f.postscriptName, f.subfamilyName] with
  | .error e => .error e
  | .ok names => .ok (jsSetDedup names)

/-! ### The font-filename regular expressions

Both builders filter directory listings with `name.match(re)` for the
regexes `/.+\.(woff|eot|woff2|ttf)/` and `/\d\.png/`.  `String.match`
searches for the pattern anywhere in the string (the regexes are not
anchored), and `.`/`\d` have their usual meanings (`.` excludes the
newline character).  The embeddings below try every start position. -/

/-- The suffix alternatives of `\.(woff|eot|woff2|ttf)`, with the dot. -/
def fontExtAlts : List (List Char) :=
  [('.' :: "woff".data), ('.' :: "eot".data), ('.' :: "woff2".data), ('.' :: "ttf".data)]

/-- Search for a match of `.+\.(woff|eot|woff2|ttf)` starting at every
position: a match exists iff some non-newline character is immediately
followed by `.` and one of the extension words. -/
def fontExtSearch : List Char → Bool
  | [] => false
  | c :: rest =>
    (decide (c ≠ '\n') && fontExtAlts.any (fun alt => alt.isPrefixOf rest)) || fontExtSearch rest

/-- `name.match(/.+\.(woff|eot|woff2|ttf)/)` truthiness. -/
def fontExtMatch (s : String) : Bool := fontExtSearch s.data

/-- Search for a match of `\d\.png` at every position. -/
def pngSearch : List Char → Bool
  | [] => false
  | c :: rest => (c.isDigit && (".png".data.isPrefixOf rest)) || pngSearch rest

/-- `file.match(/\d\.png/)` truthiness. -/
def pngMatch (s : String) : Bool := pngSearch s.data

/-! ### The font-name index (`fontNameMap : Map<string, string>`) -/

/-- `Map.prototype.set`: overwrite in place, or append. -/
def mapSet (m : List (String × String)) (k v : String) : List (String × String) :=
  if m.any (fun p => p.1 = k) then m.map (fun p => if p.1 = k then (k, v) else p)
  else m ++ [(k, v)]

/-- `Map.prototype.get`: the value, or `undefined` (`none`). -/
def mapGet (m : List (String × String)) (k : String) : Option String :=
  (m.find? (fun p => p.1 = k)).map Prod.snd

/-- The per-reference lookup step of dependency resolution:
`fontMap.get(font.toLowerCase())`. -/
def lookupFontRef (m : List (String × String)) (font : String) : Option String :=
  mapGet m font.toLower

/-- One `FontEntry` of the output manifest:
`{md5, size, ...info}` from `template-builder.ts`. -/
structure FontEntry where
  md5 : String
  size : Nat
  name : List String

/-- The font-initialisation phase of `buildTemplateIndex`: filter the fonts
directory listing by the extension regex, then for each selected filename
read its bytes, parse it, register every (lower-cased, deduplicated) name
variant in `fontNameMap`, and record its manifest `FontEntry`.  The
`Promise.all` batch is sequentialised in listing order. -/
def buildFonts (ext : ExtEnv) (fontsDir : List (String × FsNode)) :
    Except String (List (String × String) × List (String × FontEntry)) :=
  go ((fontsDir.map Prod.fst).filter fontExtMatch) [] []
where
  go : List String → List (String × String) → List (String × FontEntry) →
      Except String (List (String × String) × List (String × FontEntry))
    | [], nameMap, entries => .ok (nameMap, entries)
    | font :: rest, nameMap, entries =>
      match readFileSync fontsDir font with
      | .error e => .error e
      | .ok content =>
        match ext.fontParse content with
        | .error e => .error e
        | .ok parsed =>
          match getFontInfo parsed with
          | .error e => .error e
          | .ok names =>
            go rest (names.foldl (fun m n => mapSet m n font) nameMap)
              (entries ++ [(font, { md5 := ext.md5 content, size := content.length,
                                    name := names })])

/-! ### Font dependency resolution -/

/-- The filter callback `e => e.type === 'text' && e.font` (short-circuit:
`e.font` is only read when the type matches; either access throws on a
`null`/`undefined` element). -/
def textElemFilter (e : JSValue) : Except String Bool :=
  match jsGetProp e "type" with
  | .error err => .error err
  | .ok t =>
    if isTextType t then
      match jsGetProp e "font" with
      | .error err => .error err
      | .ok f => .ok f.truthy
    else .ok false

/-- The map callback `e => fontMap.get(e.font.toLowerCase())`. -/
def textElemLookup (fontMap : List (String × String)) (e : JSValue) :
    Except String (Option String) :=
  match jsGetProp e "font" with
  | .error err => .error err
  | .ok f =>
    match f with
    | .str s => .ok (lookupFontRef fontMap s)
    | _ => .error "TypeError"

/-- Embedding of `searchTemplateDependencyFont(fontMap, template)`:
`[...new Set(template.elements?.filter(e => e.type === 'text' &&
e.font)?.map(e => fontMap.get(e.font.toLowerCase())))]`.  A nullish
`elements` short-circuits to `undefined`, and `new Set(undefined)` is
empty; a non-array non-nullish `elements` has no `filter` method. -/
def searchTemplateDependencyFont (fontMap : List (String × String)) (template : JSValue) :
    Except String (List (Option String)) :=
  match jsGetProp template "elements" with
  | .error e => .error e
  | .ok .undefined => .ok []
  | .ok .null => .ok []
  | .ok (.arr elems) =>
    match exceptFilter textElemFilter elems with
    | .error e => .error e
    | .ok filtered =>
      match exceptMapAll (textElemLookup fontMap) filtered with
      | .error e => .error e
      | .ok mapped => .ok (jsSetDedup mapped)
  | .ok _ => .error "TypeError"

/-- The filter callback `t => t.font` of the legacy search. -/
def oldElemFilter (t : JSValue) : Except String Bool :=
  match jsGetProp t "font" with
  | .error err => .error err
  | .ok f => .ok f.truthy

/-- Embedding of `searchOldTemplateDependencyFont(fontMap, template)`:
same shape over `template.text`, filtering on a truthy `font` only. -/
def searchOldTemplateDependencyFont (fontMap : List (String × String)) (template : JSValue) :
    Except String (List (Option String)) :=
  match jsGetProp template "text" with
  | .error e => .error e
  | .ok .undefined => .ok []
  | .ok .null => .ok []
  | .ok (.arr items) =>
    match exceptFilter oldElemFilter items with
    | .error e => .error e
    | .ok filtered =>
      match exceptMapAll (textElemLookup fontMap) filtered with
      | .error e => .error e
      | .ok mapped => .ok (jsSetDedup mapped)
  | .ok _ => .error "TypeError"

/-! ### Template classification and processing (`buildTemplateIndex`) -/

/-- The fixed `runtimeInfo` constant handed to a registered callback. -/
def runtimeDescriptor : JSValue :=
  .obj [("version", .num 101), ("scriptApiVersion", .num 100), ("platform", .str "jvm"),
        ("jsEngine", .str "nashorn"), ("drawingApi", .str "awt"),
        ("features", .arr [.str "http-server", .str "qq-bot"])]

/-- The value of the local `metadata` after the script has run: every
`register(callback)` call sets `metadata = callback(runtimeInfo)`, so the
last call wins; with no call it stays `undefined`. -/
def scriptMetadata (cbs : List (JSValue → JSValue)) : JSValue :=
  ((cbs.map (fun cb => cb runtimeDescriptor)).getLast?).getD .undefined

/-- One template entry of the output manifest (the `id` key is kept
outside the record, as the source deletes it from the body). -/
structure IndexEntry where
  type : String
  metadata : JSValue
  resource : List (String × String)
  size : Nat
  dependentFonts : Option (List (Option String))

/-- The `main.js` branch of `buildTemplateIndex`: read the script, run it
with the injected `register` hook, skip the template when the resulting
`metadata` is falsy, otherwise emit a `script` entry with the directory's
digest map. -/
def processScriptTemplate (ext : ExtEnv) (es : List (String × FsNode)) :
    Except String (Option IndexEntry) :=
  match readFileSync es "main.js" with
  | .error e => .error e
  | .ok scriptContent =>
    match ext.evalScript scriptContent with
    | .error e => .error e
    | .ok cbs =>
      let metadata := scriptMetadata cbs
      if metadata.truthy then
        let hashes := filesMd5 ext.md5 es
        .ok (some { type := "script", metadata := metadata,
                    resource := hashes.resource, size := hashes.size,
                    dependentFonts := none })
      else .ok none

/-- The `template.json` branch: parse the definition, copy its `metadata`
field, compute the digest map, resolve font dependencies, and attach
`dependentFonts` exactly when the resolved list has non-zero length. -/
def processCurrentTemplate (ext : ExtEnv) (fontNameMap : List (String × String))
    (es : List (String × FsNode)) : Except String (Option IndexEntry) :=
  match readFileSync es "template.json" with
  | .error e => .error e
  | .ok content =>
    match ext.parseJSON content with
    | .error e => .error e
    | .ok template =>
      match jsGetProp template "metadata" with
      | .error e => .error e
      | .ok metadata =>
        let hashes := filesMd5 ext.md5 es
        match searchTemplateDependencyFont fontNameMap template with
        | .error e => .error e
        | .ok deps =>
          .ok (some { type := "template", metadata := metadata,
                      resource := hashes.resource, size := hashes.size,
                      dependentFonts := if deps.length ≠ 0 then some deps else none })

/-- The `data.json` branch: parse the legacy definition, synthesise the
fixed-shape metadata object, compute the digest map, resolve legacy font
dependencies, attach `dependentFonts` when non-empty. -/
def processOldTemplate (ext : ExtEnv) (fontNameMap : List (String × String))
    (es : List (String × FsNode)) : Except String (Option IndexEntry) :=
  match readFileSync es "data.json" with
  | .error e => .error e
  | .ok content =>
    match ext.parseJSON content with
    | .error e => .error e
    | .ok template =>
      match jsGetProp template "alias" with
      | .error e => .error e
      | .ok aliasV =>
        match jsGetProp template "inRandomList" with
        | .error e => .error e
        | .ok inRandomListV =>
          match jsGetProp template "hidden" with
          | .error e => .error e
          | .ok hiddenV =>
            let hashes := filesMd5 ext.md5 es
            match searchOldTemplateDependencyFont fontNameMap template with
            | .error e => .error e
            | .ok deps =>
              .ok (some { type := "template",
                          metadata := .obj [("apiVersion", .num 0), ("alias", aliasV),
                                            ("inRandomList", inRandomListV),
                                            ("hidden", hiddenV)],
                          resource := hashes.resource, size := hashes.size,
                          dependentFonts := if deps.length ≠ 0 then some deps else none })

/-- The per-entry callback of `buildTemplateIndex` over the templates
directory: a plain file yields no entry; otherwise the first present
definition artifact among `main.js`, `template.json`, `data.json` decides
the branch; a directory with none of the three yields no entry. -/
def processTemplate (ext : ExtEnv) (fontNameMap : List (String × String)) (node : FsNode) :
    Except String (Option IndexEntry) :=
  match node with
  | .file _ => .ok none
  | .dir es =>
    if existsSync es "main.js" then processScriptTemplate ext es
    else if existsSync es "template.json" then processCurrentTemplate ext fontNameMap es
    else if existsSync es "data.json" then processOldTemplate ext fontNameMap es
    else .ok none

/-- Build configuration (`config.json`). -/
structure BuildConfig where
  basePath : String
  path : String
  fontsPath : String
  oldTargetVersion : Int
  targetVersion : String

/-- The object serialised into `petpet-index.json`. -/
structure ManifestResult where
  templatesPath : String
  templates : List (String × IndexEntry)
  fontsPath : String
  fonts : List (String × FontEntry)

/-- The per-entry async callback of the `Promise.all` over the templates
directory in `buildTemplateIndex` (sequentialised in listing order),
pairing each produced entry with its directory name `id`. -/
def processTemplateEntry (ext : ExtEnv) (fontNameMap : List (String × String))
    (e : String × FsNode) : Except String (Option (String × IndexEntry)) :=
  match processTemplate ext fontNameMap e.2 with
  | .error err => .error err
  | .ok r => .ok (r.map (fun entry => (e.1, entry)))

/-- Embedding of `buildTemplateIndex(config)` proper: initialise the font
index, process every templates-directory entry, drop the `null` results
(`filter(Boolean)`), key the survivors by directory name, and assemble the
manifest object. -/
def buildTemplateIndex (ext : ExtEnv) (cfg : BuildConfig)
    (fontsDir templatesDir : List (String × FsNode)) : Except String ManifestResult :=
  match buildFonts ext fontsDir with
  | .error e => .error e
  | .ok (fontNameMap, fonts) =>
    match exceptMapAll (processTemplateEntry ext fontNameMap) templatesDir with
    | .error e => .error e
    | .ok processed =>
      .ok { templatesPath := cfg.path, templates := processed.filterMap id,
            fontsPath := cfg.fontsPath, fonts := fonts }

/-! ### The legacy builder (`old-template-builder.ts`) and `main.ts` -/

/-- The object serialised into `index.json`. -/
structure OldIndexJson where
  version : Int
  dataPath : String
  dataList : List String
  fontList : List String

/-- The object serialised into `index.map.json` (its JSON keys are
`length`, `alias`, `type`). -/
structure OldMapJson where
  lengthMap : List (String × Nat)
  aliasMap : List (String × JSValue)
  typeMap : List (String × JSValue)

/-- The two outputs of the legacy builder. -/
structure OldOutputs where
  indexJson : OldIndexJson
  indexMapJson : OldMapJson

/-- The running state of the legacy builder's filtering pass:
`(dataList, lengthMap, aliasMap, typeMap)`. -/
structure OldState where
  dataList : List String
  lengthMap : List (String × Nat)
  aliasMap : List (String × JSValue)
  typeMap : List (String × JSValue)

/-- The `filter` pass of `buildOldTemplateIndex`: keep every entry whose
`data.json` exists, and as a side effect record its frame count (files
matching `/\d\.png/`), its `alias ?? []` and its `type ?? "Unknown"`. -/
def oldTemplatesPass (ext : ExtEnv) : List (String × FsNode) → OldState →
    Except String OldState
  | [], st => .ok st
  | (name, node) :: rest, st =>
    match node with
    | .file _ => oldTemplatesPass ext rest st
    | .dir es =>
      if existsSync es "data.json" then
        let frameCount := ((es.map Prod.fst).filter pngMatch).length
        match readFileSync es "data.json" with
        | .error e => .error e
        | .ok content =>
          match ext.parseJSON content with
          | .error e => .error e
          | .ok td =>
            match jsGetProp td "alias" with
            | .error e => .error e
            | .ok aliasV =>
              match jsGetProp td "type" with
              | .error e => .error e
              | .ok typeV =>
                oldTemplatesPass ext rest
                  { dataList := st.dataList ++ [name],
                    lengthMap := st.lengthMap ++ [(name, frameCount)],
                    aliasMap := st.aliasMap ++ [(name, jsCoalesce aliasV (.arr []))],
                    typeMap := st.typeMap ++ [(name, jsCoalesce typeV (.str "Unknown"))] }
      else oldTemplatesPass ext rest st

/-- Embedding of `buildOldTemplateIndex(config)` from
`old-template-builder.ts` (packed at the end of `main.ts` in this
snapshot): run the filtering pass over the templates directory, list the
font files by the extension regex, and assemble the two legacy outputs. -/
def buildOldTemplateIndex (ext : ExtEnv) (cfg : BuildConfig)
    (templatesDir fontsDir : List (String × FsNode)) : Except String OldOutputs :=
  match oldTemplatesPass ext templatesDir
      ({ dataList := [], lengthMap := [], aliasMap := [], typeMap := [] } : OldState) with
  | .error e => .error e
  | .ok st =>
    let fontList := (fontsDir.map Prod.fst).filter fontExtMatch
    .ok { indexJson := { version := cfg.oldTargetVersion, dataPath := cfg.path,
                         dataList := st.dataList, fontList := fontList },
          indexMapJson := { lengthMap := st.lengthMap, aliasMap := st.aliasMap,
                            typeMap := st.typeMap } }

/-- A file the build writes. -/
inductive OutFile where
  | oldIndex (v : OldIndexJson)
  | oldMap (v : OldMapJson)
  | newIndex (v : ManifestResult)

/-- Embedding of the entry point in `main.ts`: spread the legacy builder's
output record, await and spread `buildTemplateIndex`, then write every
key.  An exception from either builder escapes before any write happens,
so the output-file map exists only on full success. -/
def mainBuild (ext : ExtEnv) (cfg : BuildConfig)
    (fontsDir templatesDir : List (String × FsNode)) :
    Except String (List (String × OutFile)) :=
  match buildOldTemplateIndex ext cfg templatesDir fontsDir with
  | .error e => .error e
  | .ok old =>
    match buildTemplateIndex ext cfg fontsDir templatesDir with
    | .error e => .error e
    | .ok new =>
      .ok [(pathJoin cfg.basePath "index.json", .oldIndex old.indexJson),
           (pathJoin cfg.basePath "index.map.json", .oldMap old.indexMapJson),
           (pathJoin cfg.basePath "petpet-index.json", .newIndex new)]

/-! ### Helper lemmas: `new Set`, the `Except` combinators, `toLowerCase` -/

theorem jsSetDedupAux_mem {α : Type} [DecidableEq α] (x : α) : ∀ (seen l : List α),
    (x ∈ jsSetDedupAux seen l ↔ (x ∈ l ∧ x ∉ seen))
  | seen, [] => by simp [jsSetDedupAux]
  | seen, y :: ys => by
      rw [jsSetDedupAux]
      by_cases hy : y ∈ seen
      · rw [if_pos hy, jsSetDedupAux_mem x seen ys]
        constructor
        · exact fun h => ⟨List.mem_cons_of_mem _ h.1, h.2⟩
        · rintro ⟨h1, h2⟩
          rcases List.mem_cons.1 h1 with rfl | h1'
          · exact absurd hy h2
          · exact ⟨h1', h2⟩
      · rw [if_neg hy]
        constructor
        · intro hx
          rcases List.mem_cons.1 hx with rfl | hx'
          · exact ⟨List.mem_cons_self _ _, hy⟩
          · have h := (jsSetDedupAux_mem x (y :: seen) ys).1 hx'
            exact ⟨List.mem_cons_of_mem _ h.1, fun hs => h.2 (List.mem_cons_of_mem _ hs)⟩
        · rintro ⟨h1, h2⟩
          rcases List.mem_cons.1 h1 with rfl | h1'
          · exact List.mem_cons_self _ _
          · by_cases hxy : x = y
            · subst hxy; exact List.mem_cons_self _ _
            · exact List.mem_cons_of_mem _ ((jsSetDedupAux_mem x (y :: seen) ys).2
                ⟨h1', fun hs => (List.mem_cons.1 hs).elim hxy h2⟩)

theorem jsSetDedup_mem {α : Type} [DecidableEq α] (x : α) (l : List α) :
    x ∈ jsSetDedup l ↔ x ∈ l := by
  rw [jsSetDedup, jsSetDedupAux_mem]
  simp

theorem jsSetDedupAux_nodup {α : Type} [DecidableEq α] : ∀ (seen l : List α),
    (jsSetDedupAux seen l).Nodup
  | _, [] => List.nodup_nil
  | seen, y :: ys => by
      rw [jsSetDedupAux]
      by_cases hy : y ∈ seen
      · rw [if_pos hy]; exact jsSetDedupAux_nodup seen ys
      · rw [if_neg hy]
        refine List.nodup_cons.2 ⟨?_, jsSetDedupAux_nodup (y :: seen) ys⟩
        intro hmem
        exact ((jsSetDedupAux_mem y (y :: seen) ys).1 hmem).2 (List.mem_cons_self _ _)

theorem jsSetDedup_nodup {α : Type} [DecidableEq α] (l : List α) : (jsSetDedup l).Nodup :=
  jsSetDedupAux_nodup [] l

theorem jsSetDedup_eq_nil_iff {α : Type} [DecidableEq α] (l : List α) :
    jsSetDedup l = [] ↔ l = [] := by
  cases l with
  | nil => simp [jsSetDedup, jsSetDedupAux]
  | cons y ys => simp [jsSetDedup, jsSetDedupAux]

theorem exceptMapAll_ok_mem {α β : Type} (f : α → Except String β) :
    ∀ {l : List α} {r : List β}, exceptMapAll f l = .ok r →
    ∀ y ∈ r, ∃ x ∈ l, f x = .ok y := by
  intro l
  induction l with
  | nil => intro r h y hy; rw [exceptMapAll] at h; cases h; simp at hy
  | cons x xs ih =>
      intro r h y hy
      rw [exceptMapAll] at h
      cases hfx : f x with
      | error e => rw [hfx] at h; cases h
      | ok v =>
          rw [hfx] at h
          cases hrest : exceptMapAll f xs with
          | error e => rw [hrest] at h; cases h
          | ok vs =>
              rw [hrest] at h
              cases h
              rcases List.mem_cons.1 hy with rfl | hy'
              · exact ⟨x, List.mem_cons_self _ _, hfx⟩
              · obtain ⟨x', hx', hfx'⟩ := ih hrest y hy'
                exact ⟨x', List.mem_cons_of_mem _ hx', hfx'⟩

theorem exceptMapAll_ok_length {α β : Type} (f : α → Except String β) :
    ∀ {l : List α} {r : List β}, exceptMapAll f l = .ok r → r.length = l.length := by
  intro l
  induction l with
  | nil => intro r h; rw [exceptMapAll] at h; cases h; rfl
  | cons x xs ih =>
      intro r h
      rw [exceptMapAll] at h
      cases hfx : f x with
      | error e => rw [hfx] at h; cases h
      | ok v =>
          rw [hfx] at h
          cases hrest : exceptMapAll f xs with
          | error e => rw [hrest] at h; cases h
          | ok vs => rw [hrest] at h; cases h; simp [ih hrest]

theorem exceptMapAll_error_of_mem {α β : Type} (f : α → Except String β) :
    ∀ {l : List α} {x : α} {e : String}, x ∈ l → f x = .error e →
    ∃ e2, exceptMapAll f l = .error e2 := by
  intro l
  induction l with
  | nil => intro x e hx; simp at hx
  | cons y ys ih =>
      intro x e hx hfx
      rw [exceptMapAll]
      cases hfy : f y with
      | error e' => exact ⟨e', rfl⟩
      | ok v =>
          rcases List.mem_cons.1 hx with rfl | hx'
          · rw [hfy] at hfx; cases hfx
          · obtain ⟨e2, h2⟩ := ih hx' hfx
            rw [h2]
            exact ⟨e2, rfl⟩

theorem exceptMapAll_append {α β : Type} (f : α → Except String β) :
    ∀ (l1 l2 : List α), exceptMapAll f (l1 ++ l2) =
      (match exceptMapAll f l1 with
        | .error e => .error e
        | .ok r1 =>
          match exceptMapAll f l2 with
          | .error e => .error e
          | .ok r2 => .ok (r1 ++ r2)) := by
  intro l1 l2
  induction l1 with
  | nil =>
      rw [List.nil_append, exceptMapAll]
      cases exceptMapAll f l2 <;> rfl
  | cons x xs ih =>
      rw [List.cons_append, exceptMapAll, exceptMapAll, ih]
      cases f x with
      | error e => rfl
      | ok v =>
          cases exceptMapAll f xs with
          | error e => rfl
          | ok r1 =>
              cases exceptMapAll f l2 <;> rfl

theorem exceptFilter_ok_nil_iff {α : Type} (p : α → Except String Bool) :
    ∀ {l r : List α}, exceptFilter p l = .ok r →
    (r = [] ↔ ∀ x ∈ l, p x = .ok false) := by
  intro l
  induction l with
  | nil => intro r h; rw [exceptFilter] at h; cases h; simp
  | cons x xs ih =>
      intro r h
      rw [exceptFilter] at h
      cases hpx : p x with
      | error e => rw [hpx] at h; cases h
      | ok b =>
          rw [hpx] at h
          cases hrest : exceptFilter p xs with
          | error e => rw [hrest] at h; cases h
          | ok ys =>
              rw [hrest] at h
              cases h
              cases b with
              | true =>
                  rw [if_pos rfl]
                  constructor
                  · intro h; cases h
                  · intro hall
                    have := hall x (List.mem_cons_self _ _)
                    rw [hpx] at this; cases this
              | false =>
                  rw [if_neg (by simp), ih hrest]
                  constructor
                  · intro hall y hy
                    rcases List.mem_cons.1 hy with rfl | hy'
                    · exact hpx
                    · exact hall y hy'
                  · intro hall y hy
                    exact hall y (List.mem_cons_of_mem _ hy)

theorem toLower_data (s : String) : s.toLower.data = s.data.map Char.toLower := by
  rw [String.toLower, String.map_eq]

theorem toLower_eq_empty_iff (s : String) : s.toLower = "" ↔ s = "" := by
  constructor
  · intro h
    have hd := congrArg String.data h
    rw [toLower_data] at hd
    simp only [List.map_eq_nil_iff] at hd
    exact String.ext (by simpa using hd)
  · intro h
    rw [h]
    exact String.ext (by rw [toLower_data]; rfl)

theorem toLower_eval (s : String) : s.toLower = ⟨s.data.map Char.toLower⟩ :=
  String.ext (toLower_data s)

/-! ### C4: the font-filename filter -/

theorem fontExtSearch_iff : ∀ l : List Char, (fontExtSearch l = true ↔
    ∃ (pre : List Char) (c : Char) (w suf : List Char),
      l = pre ++ c :: (w ++ suf) ∧ c ≠ '\n' ∧ w ∈ fontExtAlts)
  | [] => by
      rw [fontExtSearch]
      constructor
      · intro h; cases h
      · rintro ⟨pre, c, w, suf, h, -, -⟩
        cases pre <;> simp at h
  | c :: rest => by
      rw [fontExtSearch]
      constructor
      · intro h
        simp only [Bool.or_eq_true, Bool.and_eq_true, decide_eq_true_eq,
          List.any_eq_true] at h
        rcases h with ⟨hc, alt, halt, hpre⟩ | h2
        · obtain ⟨suf, hsuf⟩ := List.isPrefixOf_iff_prefix.mp hpre
          exact ⟨[], c, alt, suf, by rw [← hsuf]; rfl, hc, halt⟩
        · obtain ⟨pre, c', w, suf, heq, hc, hw⟩ := (fontExtSearch_iff rest).mp h2
          exact ⟨c :: pre, c', w, suf, by rw [heq]; rfl, hc, hw⟩
      · rintro ⟨pre, c', w, suf, heq, hc, hw⟩
        simp only [Bool.or_eq_true, Bool.and_eq_true, decide_eq_true_eq,
          List.any_eq_true]
        cases pre with
        | nil =>
            simp only [List.nil_append, List.cons.injEq] at heq
            exact Or.inl ⟨heq.1 ▸ hc, w, hw,
              List.isPrefixOf_iff_prefix.mpr ⟨suf, heq.2.symm⟩⟩
        | cons p ps =>
            simp only [List.cons_append, List.cons.injEq] at heq
            exact Or.inr ((fontExtSearch_iff rest).mpr ⟨ps, c', w, suf, heq.2, hc, hw⟩)

/-- The specification-side reading of the unanchored search
`name.match(/.+\.(woff|eot|woff2|ttf)/)`: somewhere in the string a
non-newline character is immediately followed by a dot and one of the
four extension words, with anything at all allowed after it. -/
def fontExtSpec (s : String) : Prop :=
  ∃ (pre : List Char) (c : Char) (w suf : List Char),
    s.data = pre ++ c :: (w ++ suf) ∧ c ≠ '\n' ∧ w ∈ fontExtAlts

/-- C4 counterexample: the filter regex is not anchored, so `a.ttf.bak`
and `a.woffX` ARE selected by the font indexer, contradicting the claim
that only filenames whose final extension segment is one of
woff/eot/woff2/ttf are selected. -/
theorem fontExtMatch_counterexample :
    fontExtMatch "a.ttf.bak" = true ∧ fontExtMatch "a.woffX" = true := by
  constructor <;> decide

/-- C4 amended: a filename is selected iff the unanchored pattern
`.+\.(woff|eot|woff2|ttf)` matches somewhere in it: some non-newline
character is immediately followed by `.` and one of woff, eot, woff2, ttf
(case-sensitively), with an arbitrary remainder allowed after the
extension word (so `a.ttf.bak` and `a.woffX` are selected). -/
theorem fontExtMatch_amended (s : String) : fontExtMatch s = true ↔ fontExtSpec s :=
  fontExtSearch_iff s.data

/-! ### C5: `getFontInfo` and absent name strings -/

/-- C5 counterexample: a font whose family name is absent makes
`getFontInfo` throw a TypeError (`undefined.toLowerCase()`), rather than
succeed with the remaining names. -/
theorem getFontInfo_absent_counterexample :
    getFontInfo { familyName := none, fullName := some "Arial",
                  postscriptName := some "Arial-Regular",
                  subfamilyName := some "Regular" } = .error "TypeError" := rfl

/-- C5 amended: when all four name strings are present, `getFontInfo`
succeeds and returns the lower-cased names deduplicated into a set (a
duplicate-free list whose members are exactly the lower-cased names);
when any of the four is absent, `getFontInfo` fails with a TypeError
instead of skipping the absent name. -/
theorem getFontInfo_amended (f : FontNames) :
    (∀ a b c d, f = ⟨some a, some b, some c, some d⟩ →
      getFontInfo f = .ok (jsSetDedup [a.toLower, b.toLower, c.toLower, d.toLower]) ∧
      (jsSetDedup [a.toLower, b.toLower, c.toLower, d.toLower]).Nodup ∧
      (∀ s, s ∈ jsSetDedup [a.toLower, b.toLower, c.toLower, d.toLower] ↔
        s ∈ [a.toLower, b.toLower, c.toLower, d.toLower])) ∧
    ((f.familyName = none ∨ f.fullName = none ∨ f.postscriptName = none ∨
        f.subfamilyName = none) → getFontInfo f = .error "TypeError") := by
  constructor
  · rintro a b c d rfl
    exact ⟨rfl, jsSetDedup_nodup _, fun s => jsSetDedup_mem s _⟩
  · obtain ⟨n1, n2, n3, n4⟩ := f
    intro habs
    rcases n1 with _ | a
    · rfl
    · rcases n2 with _ | b
      · rfl
      · rcases n3 with _ | c
        · rfl
        · rcases n4 with _ | d
          · rfl
          · simp only at habs
            rcases habs with h | h | h | h <;> simp at h

/-! ### C2: classification by presence-precedence -/

theorem processScriptTemplate_type (ext : ExtEnv) (es : List (String × FsNode)) :
    ∀ r : IndexEntry, processScriptTemplate ext es = .ok (some r) → r.type = "script" := by
  intro r h
  rw [processScriptTemplate] at h
  cases h1 : readFileSync es "main.js" with
  | error e => rw [h1] at h; cases h
  | ok sc =>
    rw [h1] at h
    dsimp only at h
    cases h2 : ext.evalScript sc with
    | error e => rw [h2] at h; cases h
    | ok cbs =>
      rw [h2] at h
      dsimp only at h
      by_cases h3 : (scriptMetadata cbs).truthy = true
      · rw [if_pos h3] at h
        cases h
        rfl
      · rw [if_neg h3] at h
        cases h

theorem processCurrentTemplate_type (ext : ExtEnv) (m : List (String × String))
    (es : List (String × FsNode)) :
    ∀ r : IndexEntry, processCurrentTemplate ext m es = .ok (some r) → r.type = "template" := by
  intro r h
  rw [processCurrentTemplate] at h
  cases h1 : readFileSync es "template.json" with
  | error e => rw [h1] at h; cases h
  | ok content =>
    rw [h1] at h
    dsimp only at h
    cases h2 : ext.parseJSON content with
    | error e => rw [h2] at h; cases h
    | ok template =>
      rw [h2] at h
      dsimp only at h
      cases h3 : jsGetProp template "metadata" with
      | error e => rw [h3] at h; cases h
      | ok md =>
        rw [h3] at h
        dsimp only at h
        cases h4 : searchTemplateDependencyFont m template with
        | error e => rw [h4] at h; cases h
        | ok deps =>
          rw [h4] at h
          dsimp only at h
          cases h
          rfl

theorem processOldTemplate_type (ext : ExtEnv) (m : List (String × String))
    (es : List (String × FsNode)) :
    ∀ r : IndexEntry, processOldTemplate ext m es = .ok (some r) → r.type = "template" := by
  intro r h
  rw [processOldTemplate] at h
  cases h1 : readFileSync es "data.json" with
  | error e => rw [h1] at h; cases h
  | ok content =>
    rw [h1] at h
    dsimp only at h
    cases h2 : ext.parseJSON content with
    | error e => rw [h2] at h; cases h
    | ok template =>
      rw [h2] at h
      dsimp only at h
      cases h3 : jsGetProp template "alias" with
      | error e => rw [h3] at h; cases h
      | ok aliasV =>
        rw [h3] at h
        dsimp only at h
        cases h4 : jsGetProp template "inRandomList" with
        | error e => rw [h4] at h; cases h
        | ok inRandomListV =>
          rw [h4] at h
          dsimp only at h
          cases h5 : jsGetProp template "hidden" with
          | error e => rw [h5] at h; cases h
          | ok hiddenV =>
            rw [h5] at h
            dsimp only at h
            cases h6 : searchOldTemplateDependencyFont m template with
            | error e => rw [h6] at h; cases h
            | ok deps =>
              rw [h6] at h
              dsimp only at h
              cases h
              rfl

/-- C2: For every immediate entry of the templates directory,
`buildTemplateIndex`'s per-entry processing classifies it by
presence-precedence: a plain file yields no entry; a subdirectory
containing `main.js` is handled by the script branch (whatever else it
contains) and any entry it produces has type `script`; otherwise one
containing `template.json` is handled by the current-format branch, whose
entries have type `template`; otherwise one containing `data.json` is
handled by the legacy branch, whose entries have type `template`; a
subdirectory with none of the three yields no entry. -/
theorem processTemplate_classification (ext : ExtEnv) (m : List (String × String)) :
    (∀ c, processTemplate ext m (.file c) = .ok none) ∧
    (∀ es, existsSync es "main.js" = true →
      processTemplate ext m (.dir es) = processScriptTemplate ext es ∧
      ∀ r, processScriptTemplate ext es = .ok (some r) → r.type = "script") ∧
    (∀ es, existsSync es "main.js" = false → existsSync es "template.json" = true →
      processTemplate ext m (.dir es) = processCurrentTemplate ext m es ∧
      ∀ r, processCurrentTemplate ext m es = .ok (some r) → r.type = "template") ∧
    (∀ es, existsSync es "main.js" = false → existsSync es "template.json" = false →
      existsSync es "data.json" = true →
      processTemplate ext m (.dir es) = processOldTemplate ext m es ∧
      ∀ r, processOldTemplate ext m es = .ok (some r) → r.type = "template") ∧
    (∀ es, existsSync es "main.js" = false → existsSync es "template.json" = false →
      existsSync es "data.json" = false → processTemplate ext m (.dir es) = .ok none) := by
  refine ⟨fun c => rfl, ?_, ?_, ?_, ?_⟩
  · intro es h1
    exact ⟨by simp [processTemplate, h1], processScriptTemplate_type ext es⟩
  · intro es h1 h2
    exact ⟨by simp [processTemplate, h1, h2], processCurrentTemplate_type ext m es⟩
  · intro es h1 h2 h3
    exact ⟨by simp [processTemplate, h1, h2, h3], processOldTemplate_type ext m es⟩
  · intro es h1 h2 h3
    simp [processTemplate, h1, h2, h3]

/-! ### C6 and C10: skipped script templates do not disturb the build -/

theorem exceptMapAll_skip {α β : Type} (f : α → Except String (Option β))
    (pre post : List α) (x : α) (hx : f x = .ok none) :
    (exceptMapAll f (pre ++ x :: post)).map (List.filterMap id) =
      (exceptMapAll f (pre ++ post)).map (List.filterMap id) := by
  rw [exceptMapAll_append f pre (x :: post), exceptMapAll_append f pre post]
  simp only [exceptMapAll]
  rw [hx]
  cases exceptMapAll f pre with
  | error e => rfl
  | ok r1 =>
    cases exceptMapAll f post with
    | error e => rfl
    | ok r2 => simp [Except.map, List.filterMap_append]

theorem buildTemplateIndex_skip_entry (ext : ExtEnv) (cfg : BuildConfig)
    (fontsDir : List (String × FsNode)) (pre post : List (String × FsNode))
    (name : String) (node : FsNode)
    (hnone : ∀ m, processTemplate ext m node = .ok none) :
    buildTemplateIndex ext cfg fontsDir (pre ++ (name, node) :: post) =
      buildTemplateIndex ext cfg fontsDir (pre ++ post) := by
  rw [buildTemplateIndex, buildTemplateIndex]
  cases hbf : buildFonts ext fontsDir with
  | error e => rfl
  | ok mf =>
    obtain ⟨m, fonts⟩ := mf
    dsimp only
    have hx : processTemplateEntry ext m (name, node) = .ok none := by
      rw [processTemplateEntry]
      dsimp only
      rw [hnone m]
      rfl
    have hskip := exceptMapAll_skip (processTemplateEntry ext m) pre post (name, node) hx
    cases hA : exceptMapAll (processTemplateEntry ext m) (pre ++ (name, node) :: post) with
    | error eA =>
      rw [hA] at hskip
      cases hB : exceptMapAll (processTemplateEntry ext m) (pre ++ post) with
      | error eB =>
        rw [hB] at hskip
        simp only [Except.map] at hskip
        cases hskip
        rfl
      | ok r2 =>
        rw [hB] at hskip
        simp only [Except.map] at hskip
        cases hskip
    | ok r1 =>
      rw [hA] at hskip
      cases hB : exceptMapAll (processTemplateEntry ext m) (pre ++ post) with
      | error eB =>
        rw [hB] at hskip
        simp only [Except.map] at hskip
        cases hskip
      | ok r2 =>
        rw [hB] at hskip
        simp only [Except.map] at hskip
        injection hskip with hfm
        dsimp only
        rw [hfm]

/-- C6: A script template whose script evaluates without error but never
calls the injected `register` hook is skipped: its directory produces no
manifest entry (`processTemplate` yields no entry whatever the font index
is), and the overall build over any templates listing containing it equals
the build over the same listing without it — other templates' entries and
the build's success are unaffected. -/
theorem script_never_registers_skipped (ext : ExtEnv) (cfg : BuildConfig)
    (fontsDir pre post : List (String × FsNode)) (name : String)
    (es : List (String × FsNode)) (scriptContent : String)
    (hmain : lookupEntry es "main.js" = some (.file scriptContent))
    (heval : ext.evalScript scriptContent = .ok []) :
    (∀ m, processTemplate ext m (.dir es) = .ok none) ∧
    buildTemplateIndex ext cfg fontsDir (pre ++ (name, .dir es) :: post) =
      buildTemplateIndex ext cfg fontsDir (pre ++ post) := by
  have hread : readFileSync es "main.js" = .ok scriptContent := by
    rw [readFileSync, hmain]
  have hex : existsSync es "main.js" = true := by
    rw [existsSync, hmain]; rfl
  have hproc : ∀ m, processTemplate ext m (.dir es) = .ok none := by
    intro m
    rw [processTemplate]
    rw [if_pos hex, processScriptTemplate, hread]
    dsimp only
    rw [heval]
    dsimp only
    rw [if_neg (by simp [scriptMetadata, JSValue.truthy])]
  exact ⟨hproc, buildTemplateIndex_skip_entry ext cfg fontsDir pre post name _ (hproc)⟩

/-- C10: A script template whose script does call `register` but whose
callback returns a falsy metadata value (such as `0`, `""`, `false` or
`null`) is skipped exactly as if `register` had never been called: its
directory produces no manifest entry, and the overall build equals the
build over the same listing without it. -/
theorem script_falsy_metadata_skipped (ext : ExtEnv) (cfg : BuildConfig)
    (fontsDir pre post : List (String × FsNode)) (name : String)
    (es : List (String × FsNode)) (scriptContent : String)
    (cbs : List (JSValue → JSValue)) (v : JSValue)
    (hmain : lookupEntry es "main.js" = some (.file scriptContent))
    (heval : ext.evalScript scriptContent = .ok cbs)
    (_hcalls : cbs ≠ [])
    (hlast : (cbs.map (fun cb => cb runtimeDescriptor)).getLast? = some v)
    (hfalsy : v.truthy = false) :
    (∀ m, processTemplate ext m (.dir es) = .ok none) ∧
    buildTemplateIndex ext cfg fontsDir (pre ++ (name, .dir es) :: post) =
      buildTemplateIndex ext cfg fontsDir (pre ++ post) := by
  have hread : readFileSync es "main.js" = .ok scriptContent := by
    rw [readFileSync, hmain]
  have hex : existsSync es "main.js" = true := by
    rw [existsSync, hmain]; rfl
  have hmeta : scriptMetadata cbs = v := by
    rw [scriptMetadata, hlast]; rfl
  have hproc : ∀ m, processTemplate ext m (.dir es) = .ok none := by
    intro m
    rw [processTemplate]
    rw [if_pos hex, processScriptTemplate, hread]
    dsimp only
    rw [heval]
    dsimp only
    rw [if_neg (by rw [hmeta, hfalsy]; exact Bool.false_ne_true)]
  exact ⟨hproc, buildTemplateIndex_skip_entry ext cfg fontsDir pre post name _ (hproc)⟩

/-! ### C7: failures terminate the build atomically -/

/-- C7: The build's output-file map is produced only on full success.  If
the old builder succeeded but any part of `buildTemplateIndex` failed (an
unreadable file, a malformed definition, a throwing script), the whole
build terminates with that very error and the entry point produces no
output map at all; conversely an `ok` result of the entry point implies
both builders succeeded and the map is the complete three-file set; and an
error while processing any single templates-directory entry makes the
whole of `buildTemplateIndex` fail. -/
theorem build_failure_is_atomic (ext : ExtEnv) (cfg : BuildConfig)
    (fontsDir templatesDir : List (String × FsNode)) :
    (∀ old e, buildOldTemplateIndex ext cfg templatesDir fontsDir = .ok old →
      buildTemplateIndex ext cfg fontsDir templatesDir = .error e →
      mainBuild ext cfg fontsDir templatesDir = .error e) ∧
    (∀ outs, mainBuild ext cfg fontsDir templatesDir = .ok outs →
      ∃ old new, buildOldTemplateIndex ext cfg templatesDir fontsDir = .ok old ∧
        buildTemplateIndex ext cfg fontsDir templatesDir = .ok new ∧
        outs = [(pathJoin cfg.basePath "index.json", .oldIndex old.indexJson),
                (pathJoin cfg.basePath "index.map.json", .oldMap old.indexMapJson),
                (pathJoin cfg.basePath "petpet-index.json", .newIndex new)]) ∧
    (∀ m fonts name node e, buildFonts ext fontsDir = .ok (m, fonts) →
      (name, node) ∈ templatesDir → processTemplate ext m node = .error e →
      ∃ e2, buildTemplateIndex ext cfg fontsDir templatesDir = .error e2) := by
  refine ⟨?_, ?_, ?_⟩
  · intro old e hold hnew
    rw [mainBuild, hold]
    dsimp only
    rw [hnew]
  · intro outs h
    rw [mainBuild] at h
    cases hold : buildOldTemplateIndex ext cfg templatesDir fontsDir with
    | error e => rw [hold] at h; cases h
    | ok old =>
      rw [hold] at h
      dsimp only at h
      cases hnew : buildTemplateIndex ext cfg fontsDir templatesDir with
      | error e => rw [hnew] at h; cases h
      | ok new =>
        rw [hnew] at h
        dsimp only at h
        cases h
        exact ⟨old, new, rfl, rfl, rfl⟩
  · intro m fonts name node e hbf hmem hperr
    rw [buildTemplateIndex, hbf]
    dsimp only
    have hentry : processTemplateEntry ext m (name, node) = .error e := by
      rw [processTemplateEntry]
      dsimp only
      rw [hperr]
    obtain ⟨e2, hmap⟩ := exceptMapAll_error_of_mem (processTemplateEntry ext m) hmem hentry
    rw [hmap]
    exact ⟨e2, rfl⟩

/-! ### C8: case-insensitive font lookup -/

theorem toLower_empty : ("" : String).toLower = "" :=
  String.ext (by rw [toLower_data]; rfl)

/-- A current-format template with a single text element referencing the
given font name, used to observe dependency resolution. -/
def mkTextTemplate (font : String) : JSValue :=
  .obj [("elements", .arr [.obj [("type", .str "text"), ("font", .str font)]])]

theorem searchTemplateDependencyFont_single (m : List (String × String)) (s : String)
    (hs : s ≠ "") :
    searchTemplateDependencyFont m (mkTextTemplate s) =
      .ok (jsSetDedup [lookupFontRef m s]) := by
  simp [searchTemplateDependencyFont, mkTextTemplate, jsGetProp, List.find?,
    exceptFilter, textElemFilter, isTextType, JSValue.truthy, exceptMapAll,
    textElemLookup, hs]

/-- C8: Font name lookup is case-insensitive.  For references `s` and `t`
that differ only in letter case (equal once lower-cased), the lookup step
of dependency resolution gives the same result; in particular when the
lower-cased reference is in the font-name index, both resolve to that very
font filename, and whole-template dependency resolution over a text
element referencing `s` equals the one referencing `t`. -/
theorem font_lookup_case_insensitive (m : List (String × String)) (s t : String)
    (hcase : s.toLower = t.toLower) :
    lookupFontRef m s = lookupFontRef m t ∧
    (∀ f, mapGet m s.toLower = some f →
      lookupFontRef m s = some f ∧ lookupFontRef m t = some f) ∧
    searchTemplateDependencyFont m (mkTextTemplate s) =
      searchTemplateDependencyFont m (mkTextTemplate t) := by
  have h1 : lookupFontRef m s = lookupFontRef m t := by
    rw [lookupFontRef, lookupFontRef, hcase]
  refine ⟨h1, fun f hf => ⟨by rw [lookupFontRef, hf],
    by rw [lookupFontRef, ← hcase, hf]⟩, ?_⟩
  by_cases hs : s = ""
  · have ht : t = "" := by
      rw [← toLower_eq_empty_iff, ← hcase, hs, toLower_empty]
    rw [hs, ht]
  · have ht : t ≠ "" := by
      intro h
      apply hs
      rw [← toLower_eq_empty_iff, hcase, h, toLower_empty]
    rw [searchTemplateDependencyFont_single m s hs,
      searchTemplateDependencyFont_single m t ht, h1]

/-! ### C3: the `dependentFonts` attachment -/

/-- A concrete collaborator instantiation for closed test cases: the
digest of a content is the content itself, the parser knows two fixed
definition texts, scripts register nothing, font parsing is unsupported. -/
def extDemo : ExtEnv :=
  { md5 := fun s => s,
    parseJSON := fun s =>
      if s = "TPL-UNKNOWN-FONT" then .ok (mkTextTemplate "Unknown")
      else if s = "DATA-F-FUN" then
        .ok (.obj [("alias", .arr [.str "f"]), ("type", .str "Fun")])
      else .error "SyntaxError",
    evalScript := fun _ => .ok [],
    fontParse := fun _ => .error "UnsupportedFont" }

/-- C3 counterexample: with the font-name index containing only
`arial ↦ arial.ttf`, a current-format template whose single text element
references the unknown font `Unknown` still gets a `dependentFonts`
field: the resolved list is `[undefined]` (the raw `Map.get` miss), whose
length is non-zero, contradicting both "contains only font filenames
present in the font-name index" and "a template whose text elements
reference only unknown fonts gets no dependentFonts field". -/
theorem searchDemo_unknown :
    searchTemplateDependencyFont [("arial", "arial.ttf")] (mkTextTemplate "Unknown") =
      .ok [none] := by
  rw [searchTemplateDependencyFont_single _ _ (by decide), lookupFontRef, toLower_eval]
  rfl

theorem processCurrentTemplate_demo :
    processCurrentTemplate extDemo [("arial", "arial.ttf")]
        [("template.json", .file "TPL-UNKNOWN-FONT")] =
      .ok (some { type := "template", metadata := .undefined,
                  resource := [("template.json", "TPL-UNKNOWN-FONT")],
                  size := 16, dependentFonts := some [none] }) := by
  rw [processCurrentTemplate]
  rw [show readFileSync [("template.json", FsNode.file "TPL-UNKNOWN-FONT")]
      "template.json" = .ok "TPL-UNKNOWN-FONT" from rfl]
  dsimp only
  rw [show extDemo.parseJSON "TPL-UNKNOWN-FONT" = .ok (mkTextTemplate "Unknown") from rfl]
  dsimp only
  rw [show jsGetProp (mkTextTemplate "Unknown") "metadata" = .ok .undefined from rfl]
  dsimp only
  rw [searchDemo_unknown]
  dsimp only
  rw [if_pos (by decide)]
  rw [show filesMd5 extDemo.md5 [("template.json", FsNode.file "TPL-UNKNOWN-FONT")] =
      { resource := [("template.json", "TPL-UNKNOWN-FONT")], size := 16 } from rfl]

theorem dependentFonts_unknown_counterexample :
    searchTemplateDependencyFont [("arial", "arial.ttf")] (mkTextTemplate "Unknown") =
      .ok [none] ∧
    processCurrentTemplate extDemo [("arial", "arial.ttf")]
        [("template.json", .file "TPL-UNKNOWN-FONT")] =
      .ok (some { type := "template", metadata := .undefined,
                  resource := [("template.json", "TPL-UNKNOWN-FONT")],
                  size := 16, dependentFonts := some [none] }) :=
  ⟨searchDemo_unknown, processCurrentTemplate_demo⟩

theorem mapGet_mem {m : List (String × String)} {k v : String}
    (h : mapGet m k = some v) : v ∈ m.map Prod.snd := by
  rw [mapGet] at h
  cases hf : m.find? (fun p => p.1 = k) with
  | none => rw [hf] at h; cases h
  | some p =>
    rw [hf] at h
    cases h
    exact List.mem_map.2 ⟨p, List.mem_of_find?_eq_some hf, rfl⟩

theorem textElemLookup_some_mem {m : List (String × String)} {f : String} {e : JSValue}
    (h : textElemLookup m e = .ok (some f)) : f ∈ m.map Prod.snd := by
  rw [textElemLookup] at h
  cases h1 : jsGetProp e "font" with
  | error err => rw [h1] at h; cases h
  | ok fv =>
    rw [h1] at h
    dsimp only at h
    cases fv with
    | str s =>
      injection h with h2
      exact mapGet_mem (by rw [← lookupFontRef]; exact h2)
    | undefined => cases h
    | null => cases h
    | bool b => cases h
    | num n => cases h
    | arr l => cases h
    | obj l => cases h

/-- C3 amended: For a current-format template whose parsed definition has
an `elements` array, font dependency resolution keeps exactly the
elements with `type === "text"` and a truthy `font`, looks each font value
up lower-cased in the font-name index, and collects the raw lookup results
— so a reference absent from the index contributes an `undefined` entry
rather than being dropped.  The resolved list is duplicate-free, every
defined entry in it is a filename from the index, it is empty exactly when
no element passes the text-with-font filter, and `dependentFonts` is
attached to the produced entry iff that list (unknown references included)
has non-zero length. -/
theorem dependentFonts_amended (ext : ExtEnv) (m : List (String × String))
    (es : List (String × FsNode)) (content : String) (template : JSValue)
    (elems : List JSValue) (r : IndexEntry)
    (hread : readFileSync es "template.json" = .ok content)
    (hparse : ext.parseJSON content = .ok template)
    (helems : jsGetProp template "elements" = .ok (.arr elems))
    (hr : processCurrentTemplate ext m es = .ok (some r)) :
    ∃ deps, searchTemplateDependencyFont m template = .ok deps ∧
      deps.Nodup ∧
      (∀ f : String, some f ∈ deps → f ∈ m.map Prod.snd) ∧
      (deps = [] ↔ ∀ e ∈ elems, textElemFilter e = .ok false) ∧
      r.dependentFonts = (if deps.length ≠ 0 then some deps else none) := by
  rw [processCurrentTemplate, hread] at hr
  dsimp only at hr
  rw [hparse] at hr
  dsimp only at hr
  cases h3 : jsGetProp template "metadata" with
  | error e => rw [h3] at hr; cases hr
  | ok md =>
    rw [h3] at hr
    dsimp only at hr
    cases h4 : searchTemplateDependencyFont m template with
    | error e => rw [h4] at hr; cases hr
    | ok deps =>
      rw [h4] at hr
      dsimp only at hr
      cases hr
      rw [searchTemplateDependencyFont, helems] at h4
      dsimp only at h4
      cases h5 : exceptFilter textElemFilter elems with
      | error e => rw [h5] at h4; cases h4
      | ok filtered =>
        rw [h5] at h4
        dsimp only at h4
        cases h6 : exceptMapAll (textElemLookup m) filtered with
        | error e => rw [h6] at h4; cases h4
        | ok mapped =>
          rw [h6] at h4
          dsimp only at h4
          injection h4 with h4
          subst h4
          refine ⟨jsSetDedup mapped, rfl, jsSetDedup_nodup mapped, ?_, ?_, rfl⟩
          · intro f hf
            obtain ⟨e, _, he⟩ := exceptMapAll_ok_mem (textElemLookup m) h6 _
              ((jsSetDedup_mem _ _).1 hf)
            exact textElemLookup_some_mem he
          · rw [jsSetDedup_eq_nil_iff, ← exceptFilter_ok_nil_iff textElemFilter h5]
            constructor
            · intro hm
              have hlen := exceptMapAll_ok_length (textElemLookup m) h6
              rw [hm] at hlen
              exact List.length_eq_zero.1 hlen.symm
            · intro hf
              rw [hf] at h6
              rw [exceptMapAll] at h6
              injection h6 with h6
              exact h6.symm

/-! ### C9: the legacy end-to-end scenario -/

/-- C9: A templates directory with one subdirectory holding `data.json`
parsed to `{alias: ["f"], type: "Fun"}` and the two files `1.png` and
`2.png` produces legacy outputs whose `dataList` includes that directory's
name and whose `index.map.json` has length 2, alias `["f"]` and type
`"Fun"` for that name. -/
theorem old_index_scenario (ext : ExtEnv) (cfg : BuildConfig)
    (nme content p1 p2 : String) (fontsDir : List (String × FsNode))
    (hparse : ext.parseJSON content =
      .ok (.obj [("alias", .arr [.str "f"]), ("type", .str "Fun")])) :
    ∃ out, buildOldTemplateIndex ext cfg
        [(nme, .dir [("data.json", .file content), ("1.png", .file p1),
                     ("2.png", .file p2)])] fontsDir = .ok out ∧
      nme ∈ out.indexJson.dataList ∧
      out.indexMapJson.lengthMap = [(nme, 2)] ∧
      out.indexMapJson.aliasMap = [(nme, .arr [.str "f"])] ∧
      out.indexMapJson.typeMap = [(nme, .str "Fun")] := by
  have hrun : buildOldTemplateIndex ext cfg
      [(nme, .dir [("data.json", .file content), ("1.png", .file p1),
                   ("2.png", .file p2)])] fontsDir =
      .ok { indexJson := { version := cfg.oldTargetVersion, dataPath := cfg.path,
                           dataList := [nme],
                           fontList := (fontsDir.map Prod.fst).filter fontExtMatch },
            indexMapJson := { lengthMap := [(nme, 2)],
                              aliasMap := [(nme, .arr [.str "f"])],
                              typeMap := [(nme, .str "Fun")] } } := by
    rw [buildOldTemplateIndex, oldTemplatesPass]
    dsimp only
    have hc : existsSync [("data.json", FsNode.file content), ("1.png", FsNode.file p1),
        ("2.png", FsNode.file p2)] "data.json" = true := rfl
    rw [if_pos hc]
    rw [show readFileSync [("data.json", FsNode.file content), ("1.png", FsNode.file p1),
        ("2.png", FsNode.file p2)] "data.json" = .ok content from rfl]
    dsimp only
    rw [hparse]
    dsimp only
    rw [show jsGetProp (JSValue.obj [("alias", .arr [.str "f"]), ("type", .str "Fun")])
        "alias" = .ok (.arr [.str "f"]) from rfl]
    dsimp only
    rw [show jsGetProp (JSValue.obj [("alias", .arr [.str "f"]), ("type", .str "Fun")])
        "type" = .ok (.str "Fun") from rfl]
    dsimp only
    rw [oldTemplatesPass]
    rfl
  exact ⟨_, hrun, List.mem_singleton.2 rfl, rfl, rfl, rfl⟩

/-! ### Concrete witnesses -/

/-- A fixed configuration for the concrete instantiations. -/
def cfgDemo : BuildConfig :=
  { basePath := "base", path := "data", fontsPath := "fonts",
    oldTargetVersion := 1, targetVersion := "1.0" }

/-- Collaborators whose script evaluation registers one callback that
returns the falsy metadata value `0`. -/
def extFalsyScript : ExtEnv :=
  { extDemo with evalScript := fun _ => .ok [fun _ => .num 0] }

theorem processTemplate_classification_witness :
    processTemplate extDemo [] (.dir [("main.js", .file "S"), ("template.json", .file "T")]) =
      processScriptTemplate extDemo [("main.js", .file "S"), ("template.json", .file "T")] ∧
    processTemplate extDemo [] (.file "plain") = .ok none :=
  ⟨((processTemplate_classification extDemo []).2.1
      [("main.js", .file "S"), ("template.json", .file "T")] rfl).1,
   (processTemplate_classification extDemo []).1 "plain"⟩

theorem dependentFonts_amended_witness :
    ∃ deps, searchTemplateDependencyFont [("arial", "arial.ttf")]
        (mkTextTemplate "Unknown") = .ok deps ∧
      deps.Nodup ∧
      (∀ f : String, some f ∈ deps →
        f ∈ ([("arial", "arial.ttf")] : List (String × String)).map Prod.snd) ∧
      (deps = [] ↔ ∀ e ∈ [JSValue.obj [("type", .str "text"), ("font", .str "Unknown")]],
        textElemFilter e = .ok false) ∧
      (({ type := "template", metadata := .undefined,
          resource := [("template.json", "TPL-UNKNOWN-FONT")],
          size := 16, dependentFonts := some [none] } : IndexEntry)).dependentFonts =
        (if deps.length ≠ 0 then some deps else none) :=
  dependentFonts_amended extDemo [("arial", "arial.ttf")]
    [("template.json", .file "TPL-UNKNOWN-FONT")] "TPL-UNKNOWN-FONT"
    (mkTextTemplate "Unknown") [JSValue.obj [("type", .str "text"), ("font", .str "Unknown")]]
    _ rfl rfl rfl processCurrentTemplate_demo

theorem getFontInfo_amended_witness :
    getFontInfo { familyName := some "Arial", fullName := some "Arial Bold",
                  postscriptName := some "Arial-Bold", subfamilyName := some "Bold" } =
      .ok (jsSetDedup ["Arial".toLower, "Arial Bold".toLower, "Arial-Bold".toLower,
        "Bold".toLower]) ∧
    getFontInfo { familyName := some "A", fullName := none, postscriptName := some "B",
                  subfamilyName := some "C" } = .error "TypeError" :=
  ⟨((getFontInfo_amended _).1 "Arial" "Arial Bold" "Arial-Bold" "Bold" rfl).1,
   (getFontInfo_amended _).2 (Or.inr (Or.inl rfl))⟩

theorem script_never_registers_witness :
    processTemplate extDemo [] (.dir [("main.js", .file "S")]) = .ok none ∧
    buildTemplateIndex extDemo cfgDemo [] ([] ++ ("t", .dir [("main.js", .file "S")]) :: []) =
      buildTemplateIndex extDemo cfgDemo [] ([] ++ []) :=
  ⟨(script_never_registers_skipped extDemo cfgDemo [] [] [] "t"
      [("main.js", .file "S")] "S" rfl rfl).1 [],
   (script_never_registers_skipped extDemo cfgDemo [] [] [] "t"
      [("main.js", .file "S")] "S" rfl rfl).2⟩

theorem build_failure_is_atomic_witness :
    mainBuild extDemo cfgDemo [] [("bad", .dir [("template.json", .file "X")])] =
      .error "SyntaxError" :=
  (build_failure_is_atomic extDemo cfgDemo [] _).1 _ "SyntaxError" rfl rfl

theorem font_lookup_case_insensitive_witness :
    lookupFontRef [("arial", "arial.ttf")] "Arial" =
      lookupFontRef [("arial", "arial.ttf")] "arial" ∧
    searchTemplateDependencyFont [("arial", "arial.ttf")] (mkTextTemplate "Arial") =
      searchTemplateDependencyFont [("arial", "arial.ttf")] (mkTextTemplate "arial") :=
  ⟨(font_lookup_case_insensitive [("arial", "arial.ttf")] "Arial" "arial"
      (by rw [toLower_eval, toLower_eval]; decide)).1,
   (font_lookup_case_insensitive [("arial", "arial.ttf")] "Arial" "arial"
      (by rw [toLower_eval, toLower_eval]; decide)).2.2⟩

theorem old_index_scenario_witness :
    ∃ out, buildOldTemplateIndex extDemo cfgDemo
        [("f-dir", .dir [("data.json", .file "DATA-F-FUN"), ("1.png", .file "P1"),
                         ("2.png", .file "P2")])] [] = .ok out ∧
      "f-dir" ∈ out.indexJson.dataList ∧
      out.indexMapJson.lengthMap = [("f-dir", 2)] ∧
      out.indexMapJson.aliasMap = [("f-dir", .arr [.str "f"])] ∧
      out.indexMapJson.typeMap = [("f-dir", .str "Fun")] :=
  old_index_scenario extDemo cfgDemo "f-dir" "DATA-F-FUN" "P1" "P2" [] rfl

theorem script_falsy_metadata_witness :
    processTemplate extFalsyScript [] (.dir [("main.js", .file "S")]) = .ok none ∧
    buildTemplateIndex extFalsyScript cfgDemo []
        ([] ++ ("t", .dir [("main.js", .file "S")]) :: []) =
      buildTemplateIndex extFalsyScript cfgDemo [] ([] ++ []) :=
  ⟨(script_falsy_metadata_skipped extFalsyScript cfgDemo [] [] [] "t"
      [("main.js", .file "S")] "S" [fun _ => .num 0] (.num 0) rfl rfl (by simp) rfl rfl).1 [],
   (script_falsy_metadata_skipped extFalsyScript cfgDemo [] [] [] "t"
      [("main.js", .file "S")] "S" [fun _ => .num 0] (.num 0) rfl rfl (by simp) rfl rfl).2⟩
